import Mathlib

/-!
Verification of the heuristic mail-classification pipeline (classify_mails.py).

The pipeline classifies an email (sender, subject, metadata date, HTML body)
into a receipt / subscription / other record.  Its components are shallowly
embedded below as executable Lean functions over Lean strings (character
lists) and exact rationals:

* brand matching (weighted_brand_match, detect_brand) with the
  payment-gateway override and the 0.35 acceptance threshold;
* amount-candidate scoring (scoreCandidate) with the percent-discount
  penalty keyed on the Python float representation of the parsed amount;
* broken-date normalization (normalize_broken_dates): the regex
  substitution that joins a month-day line with the following year line,
  then the literal line-break replacements;
* billing-frequency extraction (extract_frequency), including the
  date-interval inference over D/M/Y tokens parsed strptime-style;
* the type classifier (classify_type) and the negation-confidence scorer
  (receipt_negation_confidence);
* the per-mail output assembly (assembleMail) and its overall confidence.

Modelling conventions: Python floats for scores/confidences are modelled as
exact rationals; Python round(x, 3) (banker's rounding) as pyRound3;
character classes of the regexes in the ASCII range; registry regex
patterns, which are arbitrary external input, as an abstract compile flag
plus a match predicate on the searched text.  The fixed regexes appearing
literally in the source are compiled by hand into equivalent deterministic
matchers (the relevant quantifiers admit no observable backtracking, as
noted at each matcher).
-/

/-! ## Character classes (ASCII range of the corresponding regex classes) -/

def isPySpace (c : Char) : Bool :=
  c = ' ' || c = '\t' || c = '\n' || c = '\r' || c = '\x0b' || c = '\x0c'

def isAsciiDigit (c : Char) : Bool :=
  '0' ≤ c && c ≤ '9'

def isAsciiLetter (c : Char) : Bool :=
  ('a' ≤ c && c ≤ 'z') || ('A' ≤ c && c ≤ 'Z')

def isWordChar (c : Char) : Bool :=
  isAsciiLetter c || isAsciiDigit c || c = '_'

/-- Regex word boundary before a word character, given the previous
character of the haystack (none at the start of the string). -/
def wordBoundary (prev : Option Char) : Bool :=
  match prev with
  | none => true
  | some c => !isWordChar c

/-- Regex word boundary after a word character, given the rest of the
haystack. -/
def boundaryAfter (rest : List Char) : Bool :=
  match rest with
  | [] => true
  | c :: _ => !isWordChar c

def dval (c : Char) : Nat := c.toNat - '0'.toNat

/-! ## Substring search (the Python `in` operator on str) -/

def prefixB : List Char → List Char → Bool
  | [], _ => true
  | _ :: _, [] => false
  | a :: p, b :: l => if a = b then prefixB p l else false

def infixB (p : List Char) : List Char → Bool
  | [] => p.isEmpty
  | c :: cs => prefixB p (c :: cs) || infixB p cs

/-- Python str.lower, ASCII range. -/
def pyLower (s : String) : String :=
  String.mk (s.toList.map Char.toLower)

/-- Python `needle in hay` on strings. -/
def substrB (needle hay : String) : Bool :=
  infixB needle.toList hay.toList

/-! ## Python round(x, 3): round half to even at three decimals -/

def roundHalfEven (x : ℚ) : ℤ :=
  let n : ℤ := Rat.floor x
  let r : ℚ := x - n
  if r < 1/2 then n
  else if 1/2 < r then n + 1
  else if 2 ∣ n then n else n + 1

def pyRound3 (x : ℚ) : ℚ := (roundHalfEven (x * 1000) : ℚ) / 1000

/-! ## Brand registry model

A registry entry mirrors one brands.json record after the double
defaulting performed by weighted_brand_match (score_weights defaults,
priority default 1).  A registry pattern is an arbitrary external regex:
it is abstracted as a compile flag (re.compile succeeds or raises) plus
the predicate telling whether re.search finds a match in a given text. -/

structure Pat where
  compiles : Bool
  found : String → Bool

/-- re.search of a registry pattern: raises (error) when the pattern does
not compile, otherwise reports whether a match exists. -/
def reSearch (p : Pat) (text : String) : Except Unit Bool :=
  if p.compiles then Except.ok (p.found text) else Except.error ()

structure BrandData where
  patterns : List Pat
  sender_domains : List String
  subject_contains : List String
  wPattern : ℚ
  wSender : ℚ
  wSubject : ℚ
  priority : Int
  category : String

/-- One brand's score in weighted_brand_match: one pattern contribution
(non-compiling patterns are skipped by the try/except), one sender-domain
contribution, one subject contribution. -/
def brandScore (text sender subject : String) (d : BrandData) : ℚ :=
  (if d.patterns.any (fun p => p.compiles && p.found text) then d.wPattern else 0)
  + (if d.sender_domains.any (fun dom => substrB (pyLower dom) (pyLower sender)) then d.wSender else 0)
  + (if d.subject_contains.any (fun s => substrB (pyLower s) (pyLower subject)) then d.wSubject else 0)

structure BestSel where
  brand : Option String
  category : String
  score : ℚ
  priority : Int

/-- One iteration of the best-brand tracking loop. -/
def selStep (text sender subject : String) (best : BestSel) (e : String × BrandData) : BestSel :=
  let score := brandScore text sender subject e.2
  if score > best.score ∨ (score = best.score ∧ e.2.priority > best.priority) then
    { brand := some e.1, category := e.2.category, score := score, priority := e.2.priority }
  else best

def selectBrand (registry : List (String × BrandData)) (text sender subject : String) : BestSel :=
  registry.foldl (selStep text sender subject) ⟨none, "others", 0, -1⟩

/-- weighted_brand_match: pick the best-scoring brand, then discard it if
its score is below the 0.35 threshold. -/
def weighted_brand_match (registry : List (String × BrandData))
    (text sender subject : String) : Option String × String :=
  let b := selectBrand registry text sender subject
  if b.score < 0.35 then (none, "others") else (b.brand, b.category)

def GATEWAYS : List String :=
  ["razorpay", "stripe", "cashfree", "ccavenue", "payu", "paypal", "google_play"]

/-- The inner pattern loop of the gateway-override re-scan in detect_brand.
Unlike weighted_brand_match, this loop has no try/except, so a
non-compiling pattern propagates the exception. -/
def scanPatterns (text : String) : List Pat → Except Unit Bool
  | [] => Except.ok false
  | p :: ps =>
    match reSearch p text with
    | Except.error e => Except.error e
    | Except.ok true => Except.ok true
    | Except.ok false => scanPatterns text ps

/-- The gateway-override re-scan of detect_brand: first non-gateway brand
whose patterns match the text, in registry order. -/
def rescanMerchants (text : String) : List (String × BrandData) → Except Unit (Option (String × String))
  | [] => Except.ok none
  | (n, d) :: rest =>
    if GATEWAYS.contains n then rescanMerchants text rest
    else
      match scanPatterns text d.patterns with
      | Except.error e => Except.error e
      | Except.ok true => Except.ok (some (n, d.category))
      | Except.ok false => rescanMerchants text rest

/-- detect_brand, steps 1 (weighted registry match) and the gateway
override.  The sender-domain / capitalized-phrase / HTML-logo fallback
chain (steps 2-5 of the source, reached only when the registry match
fails) is not needed by any property below and is abstracted as the
value it would return, passed in as the fallback argument. -/
def detect_brand (registry : List (String × BrandData))
    (fallback : Option String × String × ℚ)
    (text sender subject : String) : Except Unit (Option String × String × ℚ) :=
  let jb := weighted_brand_match registry text sender subject
  match jb.1 with
  | some b =>
    if GATEWAYS.contains b then
      match rescanMerchants text registry with
      | Except.error e => Except.error e
      | Except.ok (some (m, c)) => Except.ok (some m, c, 0.98)
      | Except.ok none => Except.ok (some b, jb.2, 0.95)
    else Except.ok (some b, jb.2, 0.95)
  | none => Except.ok fallback

/-- The first non-gateway registry brand one of whose (compiling) patterns
matches the text, in registry order: the brand the gateway-override rule
is meant to select. -/
def firstMatchingMerchant (text : String) : List (String × BrandData) → Option (String × String)
  | [] => none
  | (n, d) :: rest =>
    if !(GATEWAYS.contains n) && d.patterns.any (fun p => p.compiles && p.found text) then
      some (n, d.category)
    else firstMatchingMerchant text rest

/-- Registry with every non-compiling pattern removed. -/
def stripBad (registry : List (String × BrandData)) : List (String × BrandData) :=
  registry.map (fun e => (e.1, { e.2 with patterns := e.2.patterns.filter (fun p => p.compiles) }))

/-! ## Amount-candidate scoring (extract_amount, scoring step)

A candidate is a regex hit that survived is_valid_amount, recorded with
its source view and its value as parsed by float().  The percent penalty
compares the f-string rendering of that float, followed by a percent
sign, against the text; pyFloatRepr reproduces the Python float
representation for the amount shapes the extractor produces (a value in
[10, 100000000] with at most two decimal digits). -/

inductive AmtSrc
  | html
  | text
deriving DecidableEq

structure AmtCandidate where
  src : AmtSrc
  amt : ℚ

/-- Python repr of float(a) for a non-negative amount with at most two
decimal digits: integers print with a trailing .0, otherwise the decimal
part prints with trailing zeros stripped. -/
def pyFloatRepr (q : ℚ) : String :=
  let c : ℤ := Rat.floor (q * 100)
  let ip := c / 100
  let rem := c % 100
  if rem = 0 then toString ip ++ ".0"
  else if rem % 10 = 0 then toString ip ++ "." ++ toString (rem / 10)
  else if rem < 10 then toString ip ++ ".0" ++ toString rem
  else toString ip ++ "." ++ toString rem

def SUBJECT_AMT_KEYS : List String := ["invoice", "receipt", "order", "payment"]

def FIN_CONTEXT_KEYS : List String := ["total", "amount", "paid", "charged", "transaction"]

/-- Candidate scoring of extract_amount: base by source, receipt context
in the subject, financial keywords in the text, and the discount penalty,
which tests whether the float rendering of the candidate followed by a
percent sign occurs in the text. -/
def scoreCandidate (subjectLower textLower : String) (c : AmtCandidate) : ℚ :=
  (if c.src = AmtSrc.html then (0.4 : ℚ) else 0.3)
  + (if SUBJECT_AMT_KEYS.any (fun k => substrB k subjectLower) then (0.3 : ℚ) else 0)
  + (if FIN_CONTEXT_KEYS.any (fun k => substrB k textLower) then (0.2 : ℚ) else 0)
  - (if substrB (pyFloatRepr c.amt ++ "%") textLower then (0.5 : ℚ) else 0)

/-! ## normalize_broken_dates

The source applies one regex substitution and three literal
replacements:

  re.sub of  month-alternation [a-z]* \s+ \d{1,2} , \s* newline \s* (\d{4})
  (IGNORECASE), replaced by  group1 ++ " " ++ group2;
  then replace "<br>" by " ", "\r\n" by " ", "\n" by " ".

In the substitution regex every quantifier is followed by a character
class disjoint from its own, except the whitespace run around the
literal newline and the day, which are resolved below exactly as the
backtracking engine resolves them (see the comments); the matcher is
therefore deterministic. -/

def MONTHS : List (List Char) :=
  ["jan", "feb", "mar", "apr", "may", "jun", "jul", "aug", "sep", "oct", "nov", "dec"].map String.toList

/-- Case-insensitive literal prefix test (the month alternation under
IGNORECASE). -/
def matchCI (lit : List Char) (l : List Char) : Bool :=
  decide (lit = (l.take lit.length).map Char.toLower)

/-- The day and comma: \d{1,2} is greedy, and when two digits are present
the one-digit alternative necessarily fails on the literal comma (the
next character is a digit), so two digits force the two-digit reading. -/
def dayComma (l : List Char) : Option (List Char) :=
  match l with
  | a :: b :: rest =>
    if isAsciiDigit a then
      if isAsciiDigit b then
        match rest with
        | ',' :: r => some r
        | _ => none
      else if b = ',' then some rest
      else none
    else none
  | _ => none

/-- One attempted match of the broken-date regex at the current position.
Returns (group 1 = month alternation as matched, group 2 = year digits,
rest of the haystack).  The whitespace between the comma and the year
must contain the literal newline somewhere in its (unique, maximal) run:
the two \s* around the newline backtrack to any split of that run. -/
def tryMatchBD (prev : Option Char) (l : List Char) : Option (List Char × List Char × List Char) :=
  if wordBoundary prev then
    match MONTHS.find? (fun m => matchCI m l) with
    | none => none
    | some _ =>
      let g1 := l.take 3
      let r2 := (l.drop 3).dropWhile isAsciiLetter
      if (r2.takeWhile isPySpace).isEmpty then none
      else
        match dayComma (r2.dropWhile isPySpace) with
        | none => none
        | some r4 =>
          if (r4.takeWhile isPySpace).any (fun c => c == '\n') then
            let r5 := r4.dropWhile isPySpace
            let yr := r5.take 4
            if yr.length = 4 && yr.all isAsciiDigit then some (g1, yr, r5.drop 4)
            else none
          else none
  else none

/-- re.sub scanning: try a match at every position, non-overlapping,
left to right; the previous original character is tracked for the word
boundary.  Fuel is the remaining haystack length; a successful match
consumes at least one character, so fuel never runs out. -/
def subBDAux : Nat → Option Char → List Char → List Char
  | 0, _, l => l
  | _ + 1, _, [] => []
  | fuel + 1, prev, c :: cs =>
    match tryMatchBD prev (c :: cs) with
    | some (g1, g2, rest) => g1 ++ ' ' :: (g2 ++ subBDAux fuel (some (g2.getLastD '0')) rest)
    | none => c :: subBDAux fuel (some c) cs

def subBD (l : List Char) : List Char := subBDAux l.length none l

/-- str.replace of a literal nonempty token (q0 followed by qs) by a
single space: left to right, non-overlapping.  Fuel is the remaining
haystack length; every step consumes at least one character, so fuel
never runs out. -/
def replaceTokAux (q0 : Char) (qs : List Char) : Nat → List Char → List Char
  | 0, l => l
  | _ + 1, [] => []
  | fuel + 1, c :: cs =>
    if prefixB (q0 :: qs) (c :: cs) then ' ' :: replaceTokAux q0 qs fuel (cs.drop qs.length)
    else c :: replaceTokAux q0 qs fuel cs

def replaceTok (q0 : Char) (qs : List Char) (l : List Char) : List Char :=
  replaceTokAux q0 qs l.length l

def nbdL (l : List Char) : List Char :=
  replaceTok '\n' [] (replaceTok '\r' ['\n'] (replaceTok '<' ['b', 'r', '>'] (subBD l)))

def normalize_broken_dates (s : String) : String :=
  String.mk (nbdL s.toList)

/-! ## Frequency extractor (extract_frequency)

Steps 1-3 search fixed regexes whose shapes are: a word-bounded literal,
an alternation of word-bounded literals, or a slash followed by optional
whitespace and a literal (optionally word-bounded on the right).  In the
slash shape the literal starts with a letter, so the greedy whitespace
run is forced to its maximal extent.  Step 4 collects D/M/Y-shaped
tokens and parses the first two with strptime("%d/%m/%Y") semantics. -/

inductive FreqPat
  | word (lit : String)
  | wordAlt (lits : List String)
  | slash (lit : String) (wb : Bool)

/-- re.search of a word-bounded literal (the literal begins and ends with
a word character, as every frequency keyword does). -/
def searchWordLitAux (lit : List Char) : Option Char → List Char → Bool
  | _, [] => false
  | prev, c :: cs =>
    (wordBoundary prev && prefixB lit (c :: cs) && boundaryAfter ((c :: cs).drop lit.length))
    || searchWordLitAux lit (some c) cs

def searchWordLit (lit : String) (t : List Char) : Bool :=
  searchWordLitAux lit.toList none t

/-- re.search of slash, \s*, literal (and a word boundary after it when
wb is set). -/
def searchSlash (lit : String) (wb : Bool) : List Char → Bool
  | [] => false
  | c :: cs =>
    (c = '/' &&
      (prefixB lit.toList (cs.dropWhile isPySpace)
        && (!wb || boundaryAfter ((cs.dropWhile isPySpace).drop lit.toList.length))))
    || searchSlash lit wb cs

def freqPatMatch (t : List Char) : FreqPat → Bool
  | FreqPat.word lit => searchWordLit lit t
  | FreqPat.wordAlt lits => lits.any (fun l => searchWordLit l t)
  | FreqPat.slash lit wb => searchSlash lit wb t

/-- FREQ_PATTERNS in source (dict) order; the single source pattern
semi[- ]?annual is the three-way alternation below. -/
def FREQ_PATTERNS : List (String × List FreqPat) := [
  ("weekly", [FreqPat.word "weekly", FreqPat.word "every week", FreqPat.word "per week",
    FreqPat.word "renews weekly", FreqPat.word "7 days", FreqPat.slash "week" false,
    FreqPat.word "wk"]),
  ("monthly", [FreqPat.word "monthly", FreqPat.word "every month", FreqPat.word "per month",
    FreqPat.word "billed monthly", FreqPat.word "renews monthly", FreqPat.slash "mo" true,
    FreqPat.slash "mon" true, FreqPat.word "30 days", FreqPat.word "every 30 days"]),
  ("yearly", [FreqPat.word "yearly", FreqPat.word "annual", FreqPat.word "annually",
    FreqPat.word "per year", FreqPat.word "billed yearly", FreqPat.word "renews yearly",
    FreqPat.slash "yr" true, FreqPat.slash "year" true, FreqPat.word "12 months"]),
  ("quarterly", [FreqPat.word "quarterly", FreqPat.word "every 3 months", FreqPat.word "3 months"]),
  ("semi_annual", [FreqPat.wordAlt ["semi-annual", "semi annual", "semiannual"],
    FreqPat.word "every 6 months", FreqPat.word "6 months"])]

/-- Steps 1-3 of extract_frequency: the keyword families at 0.9, the
pricing shorthand at 0.85 (the alternation (mo|mon|month) matches exactly
when its first branch mo does, since mo prefixes the others), and the
renews-on co-occurrence at 0.7. -/
def freqSteps123 (s : String) : Option (String × ℚ) :=
  let t := s.toList
  match FREQ_PATTERNS.find? (fun fp => fp.2.any (freqPatMatch t)) with
  | some (f, _) => some (f, 0.9)
  | none =>
    if searchSlash "mo" false t then some ("monthly", 0.85)
    else if searchSlash "yr" false t || searchSlash "year" false t then some ("yearly", 0.85)
    else if searchSlash "wk" false t then some ("weekly", 0.85)
    else if substrB "renews on" s && substrB "month" s then some ("monthly", 0.7)
    else if substrB "renews on" s && substrB "year" s then some ("yearly", 0.7)
    else none

/-! Date tokens: findall of word-bounded \d{1,2} sep \d{1,2} sep \d{2,4}
with sep one of slash or hyphen.  The digit quantifiers are greedy; a
one-digit reading is viable only when the next character is not a digit,
so each run is forced, and the trailing \d{2,4} tries four, three, then
two digits against the trailing word boundary. -/

def sepChar (c : Char) : Bool := c = '-' || c = '/'

/-- Greedy \d{1,2} followed by a separator: (digits, separator, rest). -/
def dig12sep : List Char → Option (List Char × Char × List Char)
  | a :: b :: c :: rest =>
    if isAsciiDigit a then
      if isAsciiDigit b then
        if sepChar c then some ([a, b], c, rest) else none
      else if sepChar b then some ([a], b, c :: rest)
      else none
    else none
  | [a, b] => if isAsciiDigit a && sepChar b then some ([a], b, []) else none
  | _ => none

/-- \d{n} against a trailing word boundary. -/
def tryYearN (n : Nat) (l : List Char) : Option (List Char × List Char) :=
  let y := l.take n
  if y.length = n && y.all isAsciiDigit && boundaryAfter (l.drop n) then some (y, l.drop n)
  else none

def year24 (l : List Char) : Option (List Char × List Char) :=
  match tryYearN 4 l with
  | some r => some r
  | none =>
    match tryYearN 3 l with
    | some r => some r
    | none => tryYearN 2 l

/-- One attempted match of the date-token regex at the current position;
returns (group = whole token, rest). -/
def tokMatch (prev : Option Char) (l : List Char) : Option (List Char × List Char) :=
  if wordBoundary prev then
    match dig12sep l with
    | none => none
    | some (d1, s1, r1) =>
      match dig12sep r1 with
      | none => none
      | some (d2, s2, r2) =>
        match year24 r2 with
        | none => none
        | some (y, rest) => some (d1 ++ s1 :: (d2 ++ s2 :: y), rest)
  else none

/-- findall scanning, non-overlapping, left to right (fuel as in
subBDAux). -/
def dateTokensAux : Nat → Option Char → List Char → List (List Char)
  | 0, _, _ => []
  | _ + 1, _, [] => []
  | fuel + 1, prev, c :: cs =>
    match tokMatch prev (c :: cs) with
    | some (tok, rest) => tok :: dateTokensAux fuel (some (tok.getLastD '0')) rest
    | none => dateTokensAux fuel (some c) cs

def dateTokens (s : String) : List (List Char) :=
  dateTokensAux s.toList.length none s.toList

/-! strptime(token, "%d/%m/%Y") and the day difference of datetime. -/

def isLeap (y : Nat) : Bool := y % 4 = 0 && (y % 100 ≠ 0 || y % 400 = 0)

def daysInMonth (y m : Nat) : Nat :=
  if m = 2 then (if isLeap y then 29 else 28)
  else if m = 4 ∨ m = 6 ∨ m = 9 ∨ m = 11 then 30
  else 31

/-- The %d directive: one or two digits forming 1..31; two digits are
forced when available (a one-digit reading leaves a digit where the
slash is expected). -/
def parseDay : List Char → Option (Nat × List Char)
  | a :: b :: r =>
    if isAsciiDigit a && isAsciiDigit b then
      let v := dval a * 10 + dval b
      if 1 ≤ v ∧ v ≤ 31 then some (v, r)
      else if 1 ≤ dval a then some (dval a, b :: r) else none
    else if isAsciiDigit a && 1 ≤ dval a then some (dval a, b :: r)
    else none
  | [a] => if isAsciiDigit a && 1 ≤ dval a then some (dval a, []) else none
  | [] => none

/-- The %m directive: one or two digits forming 1..12. -/
def parseMonth : List Char → Option (Nat × List Char)
  | a :: b :: r =>
    if isAsciiDigit a && isAsciiDigit b then
      let v := dval a * 10 + dval b
      if 1 ≤ v ∧ v ≤ 12 then some (v, r)
      else if 1 ≤ dval a then some (dval a, b :: r) else none
    else if isAsciiDigit a && 1 ≤ dval a then some (dval a, b :: r)
    else none
  | [a] => if isAsciiDigit a && 1 ≤ dval a then some (dval a, []) else none
  | [] => none

/-- strptime(tok, "%d/%m/%Y") followed by the datetime constructor
validation: the format consumes the whole string, the year has exactly
four digits and is at least 1, and the day exists in that month. -/
def parseDMY (tok : List Char) : Option (Nat × Nat × Nat) :=
  match parseDay tok with
  | none => none
  | some (d, r1) =>
    match r1 with
    | '/' :: r2 =>
      match parseMonth r2 with
      | none => none
      | some (m, r3) =>
        match r3 with
        | '/' :: r4 =>
          if r4.length = 4 && r4.all isAsciiDigit then
            let y := r4.foldl (fun acc c => acc * 10 + dval c) 0
            if 1 ≤ y ∧ d ≤ daysInMonth y m then some (d, m, y) else none
          else none
        | _ => none
    | _ => none

/-- Days before month m (1-based) in year y. -/
def cumDays (y m : Nat) : Nat :=
  [0, 31, 59, 90, 120, 151, 181, 212, 243, 273, 304, 334].getD (m - 1) 0
  + (if 2 < m ∧ isLeap y then 1 else 0)

/-- Proleptic Gregorian ordinal (date.toordinal). -/
def dateOrdinal (t : Nat × Nat × Nat) : ℤ :=
  match t with
  | (d, m, y) =>
    (365 * (y - 1) + (y - 1) / 4 - (y - 1) / 100 + (y - 1) / 400 + cumDays y m + d : Int)

def dateDiffDays (a b : Nat × Nat × Nat) : Nat :=
  (dateOrdinal b - dateOrdinal a).natAbs

/-- The interval-to-frequency map of step 4 (lines 492-497), including
the fall-through to no frequency. -/
def intervalFreq (diff : Nat) : Option String × ℚ :=
  if 27 ≤ diff ∧ diff ≤ 33 then (some "monthly", 0.75)
  else if 350 ≤ diff ∧ diff ≤ 380 then (some "yearly", 0.75)
  else if 6 ≤ diff ∧ diff ≤ 8 then (some "weekly", 0.75)
  else (none, 0)

/-- Step 4 of extract_frequency: with at least two date tokens, parse the
first two; any parse failure is swallowed by the try/except and yields
no frequency. -/
def freqStep4 (s : String) : Option String × ℚ :=
  match dateTokens s with
  | t1 :: t2 :: _ =>
    match parseDMY t1, parseDMY t2 with
    | some a, some b => intervalFreq (dateDiffDays a b)
    | _, _ => (none, 0)
  | _ => (none, 0)

def extract_frequency (text : String) : Option String × ℚ :=
  match freqSteps123 (pyLower text) with
  | some (f, c) => (some f, c)
  | none => freqStep4 (pyLower text)

/-! ## Type classifier (classify_type)

is_receipt aggregates the amount extractor and several regex signals; the
recurring-keyword override precedes it and is independent of its value,
so is_receipt is abstracted as a function argument here. -/

def RECURRING_KEYWORDS : List String :=
  ["subscription", "renewal", "auto-debit", "recurring", "billing cycle", "renews on", "auto-renew"]

def hasRecurring (textLower : String) : Bool :=
  RECURRING_KEYWORDS.any (fun k => substrB k textLower)

def classify_type (isReceiptF : String → String → String → Bool)
    (text html subject : String) : String :=
  if hasRecurring (pyLower text) then "subscription"
  else if !(isReceiptF text html subject) then "others"
  else "purchase"

/-! ## Negation-confidence scorer (receipt_negation_confidence)

The amount signal is the first component of extract_amount(text, html,
subject); the full extractor is regex machinery whose only contribution
here is whether it found anything, so that result is a parameter. -/

def RECEIPT_META : List String :=
  ["invoice", "receipt", "payment", "purchase", "order", "transaction"]

def ID_LITERALS : List String :=
  ["order id", "transaction id", "txn id", "utr", "folio", "invoice number", "invoice no"]

/-- re.search of the ID_REGEX alternation of literals. -/
def idRegexFound (t : String) : Bool :=
  ID_LITERALS.any (fun k => substrB k t)

def receipt_negation_confidence (amount : Option ℚ) (text subject : String) : ℚ :=
  pyRound3 (min
    ((if !(RECEIPT_META.any (fun k => substrB k (pyLower subject))) then (0.4 : ℚ) else 0)
      + (if amount = none then (0.4 : ℚ) else 0)
      + (if !(idRegexFound (pyLower text)) then (0.2 : ℚ) else 0)) 1)

/-! ## Per-mail output assembly (process_mails, per-mail body)

The derived confidence fields of one output record as a function of the
classified type and the component results. -/

inductive MailType
  | purchase
  | subscription
  | others
deriving DecidableEq

structure MailOut where
  type : MailType
  amount_confidence : Option ℚ := none
  date_confidence : Option ℚ := none
  start_date_confidence : Option ℚ := none
  frequency_confidence : Option ℚ := none
  overall_confidence : ℚ

/-- Lines 645-673 of the source: for others the negation confidence is
the overall confidence; otherwise date fields per type, and the overall
confidence is round(mean of amount and date confidences, 3). -/
def assembleMail (mt : MailType) (amountConf dateConf freqConf negConf : ℚ) : MailOut :=
  match mt with
  | MailType.others => { type := MailType.others, overall_confidence := negConf }
  | MailType.purchase =>
    { type := MailType.purchase, amount_confidence := some amountConf,
      date_confidence := some dateConf,
      overall_confidence := pyRound3 ((amountConf + dateConf) / 2) }
  | MailType.subscription =>
    { type := MailType.subscription, amount_confidence := some amountConf,
      start_date_confidence := some dateConf, frequency_confidence := some freqConf,
      overall_confidence := pyRound3 ((amountConf + dateConf) / 2) }

/-! ## Claim theorems -/

/-- Claim C2: for a mail classified as subscription, the emitted
overall_confidence is the 3-decimal rounding of the mean of
amount_confidence and date_confidence, identical to the purchase case,
and the frequency confidence (though emitted) contributes nothing to
it. -/
theorem C2_overall_confidence (a d f f2 n n2 : ℚ) :
    (assembleMail MailType.subscription a d f n).overall_confidence = pyRound3 ((a + d) / 2)
    ∧ (assembleMail MailType.subscription a d f n).overall_confidence
        = (assembleMail MailType.subscription a d f2 n2).overall_confidence
    ∧ (assembleMail MailType.subscription a d f n).overall_confidence
        = (assembleMail MailType.purchase a d f2 n2).overall_confidence
    ∧ (assembleMail MailType.subscription a d f n).frequency_confidence = some f :=
  ⟨rfl, rfl, rfl, rfl⟩

/-- Claim C10: the negation-confidence scorer only ever returns one of
0.0, 0.2, 0.4, 0.6, 0.8, 1.0, whatever the inputs. -/
theorem C10_negation_values (amount : Option ℚ) (text subject : String) :
    receipt_negation_confidence amount text subject = 0
    ∨ receipt_negation_confidence amount text subject = 0.2
    ∨ receipt_negation_confidence amount text subject = 0.4
    ∨ receipt_negation_confidence amount text subject = 0.6
    ∨ receipt_negation_confidence amount text subject = 0.8
    ∨ receipt_negation_confidence amount text subject = 1 := by
  unfold receipt_negation_confidence
  split_ifs <;> with_unfolding_all decide

/-- Claim C3 (evidence): the discount penalty of the amount-candidate
scorer tests the Python float rendering of the candidate (here 1500.0)
followed by a percent sign, not the literal digit string: in a text
where the literal amount 1500 is immediately followed by a percent sign,
the candidate is scored 0.3 + 0.2 with no 0.5 subtracted. -/
theorem C3_percent_penalty_gap :
    scoreCandidate "big sale" "total: 1500% cashback" ⟨AmtSrc.text, 1500⟩ = 1/2
    ∧ substrB ("1500" ++ "%") "total: 1500% cashback" = true
    ∧ substrB (pyFloatRepr 1500 ++ "%") "total: 1500% cashback" = false := by
  refine ⟨by with_unfolding_all decide, by decide, by with_unfolding_all decide⟩

/-- Claim C6: any recurring keyword in the (lowercased) text forces the
classification "subscription" regardless of the is_receipt signal;
without such a keyword the result is "purchase" or "others" exactly as
is_receipt is true or false. -/
theorem C6_recurring_override (ir ir2 : String → String → String → Bool)
    (text html subject : String) :
    (hasRecurring (pyLower text) = true →
      classify_type ir text html subject = "subscription"
      ∧ classify_type ir text html subject = classify_type ir2 text html subject)
    ∧ (hasRecurring (pyLower text) = false →
      classify_type ir text html subject
        = (if ir text html subject then "purchase" else "others")) := by
  constructor
  · intro h
    constructor <;> simp [classify_type, h]
  · intro h
    cases hb : ir text html subject <;> simp [classify_type, h, hb]

/-- Claim C6 witness: a text containing auto-renew classifies as
subscription even under an is_receipt that always answers false. -/
theorem C6_recurring_override_witness :
    hasRecurring (pyLower "Please enable auto-renew today") = true
    ∧ classify_type (fun _ _ _ => false) "Please enable auto-renew today" "" "" = "subscription" :=
  ⟨by decide,
    ((C6_recurring_override (fun _ _ _ => false) (fun _ _ _ => true)
      "Please enable auto-renew today" "" "").1 (by decide)).1⟩

/-- Claim C7: the weighted brand matcher returns the selected brand
exactly when the winning score reaches 0.35: strictly below the
threshold it returns no brand and category "others", at or above it
returns the selected brand and category. -/
theorem C7_threshold (registry : List (String × BrandData)) (text sender subject : String) :
    ((selectBrand registry text sender subject).score < 0.35 →
      weighted_brand_match registry text sender subject = (none, "others"))
    ∧ (0.35 ≤ (selectBrand registry text sender subject).score →
      weighted_brand_match registry text sender subject
        = ((selectBrand registry text sender subject).brand,
            (selectBrand registry text sender subject).category)) := by
  constructor
  · intro h
    unfold weighted_brand_match
    rw [if_pos h]
  · intro h
    unfold weighted_brand_match
    rw [if_neg (not_lt.mpr h)]

def regC7a : List (String × BrandData) :=
  [("acme", ⟨[⟨true, fun t => substrB "acme" t⟩], [], [], 0.35, 0.3, 0.2, 1, "shopping"⟩)]

def regC7b : List (String × BrandData) :=
  [("acme", ⟨[⟨true, fun t => substrB "acme" t⟩], [], [], 0.349999, 0.3, 0.2, 1, "shopping"⟩)]

/-- Claim C7 witness: a brand whose matching pattern weight is exactly
0.35 is accepted; with weight 0.349999 it is rejected as "others". -/
theorem C7_threshold_witness :
    (0.35 : ℚ) ≤ (selectBrand regC7a "acme order" "" "").score
    ∧ weighted_brand_match regC7a "acme order" "" "" = (some "acme", "shopping")
    ∧ (selectBrand regC7b "acme order" "" "").score < 0.35
    ∧ weighted_brand_match regC7b "acme order" "" "" = (none, "others") :=
  ⟨by with_unfolding_all decide,
    ((C7_threshold regC7a "acme order" "" "").2 (by with_unfolding_all decide)).trans
      (by with_unfolding_all decide),
    by with_unfolding_all decide,
    (C7_threshold regC7b "acme order" "" "").1 (by with_unfolding_all decide)⟩

/-- Claim C8 (evidence): on the text nov 14 comma newline 2025, the
broken-date normalizer rewrites the match to month and year only: the
output is "nov 2025" and the day 14 does not occur in it, while the
function's own docstring promises "nov 14, 2025". -/
theorem C8_broken_date_drops_day :
    normalize_broken_dates "nov 14,\n2025" = "nov 2025"
    ∧ substrB "14" (normalize_broken_dates "nov 14,\n2025") = false := by
  refine ⟨by decide, by decide⟩

/-! ## Brand-matcher lemmas for the gateway override and pattern skipping -/

lemma scanPatterns_all_compile (text : String) (ps : List Pat)
    (h : ∀ p ∈ ps, p.compiles = true) :
    scanPatterns text ps = Except.ok (ps.any fun p => p.compiles && p.found text) := by
  induction ps with
  | nil => rfl
  | cons p ps ih =>
    have hp : p.compiles = true := h p (List.mem_cons_self p ps)
    have hrest : ∀ q ∈ ps, q.compiles = true := fun q hq => h q (List.mem_cons_of_mem p hq)
    simp only [scanPatterns, reSearch, hp, if_true, List.any_cons]
    cases hf : p.found text
    · simpa [hf] using ih hrest
    · simp [hf]

lemma rescan_eq_first (text : String) (registry : List (String × BrandData))
    (hall : ∀ e ∈ registry, GATEWAYS.contains e.1 = false →
      ∀ p ∈ e.2.patterns, p.compiles = true) :
    rescanMerchants text registry = Except.ok (firstMatchingMerchant text registry) := by
  induction registry with
  | nil => rfl
  | cons e rest ih =>
    obtain ⟨n, d⟩ := e
    have hrest : ∀ e ∈ rest, GATEWAYS.contains e.1 = false →
        ∀ p ∈ e.2.patterns, p.compiles = true :=
      fun e he => hall e (List.mem_cons_of_mem _ he)
    show (if GATEWAYS.contains n then rescanMerchants text rest
          else match scanPatterns text d.patterns with
            | Except.error e => Except.error e
            | Except.ok true => Except.ok (some (n, d.category))
            | Except.ok false => rescanMerchants text rest)
        = Except.ok
            (if !(GATEWAYS.contains n) && d.patterns.any (fun p => p.compiles && p.found text)
              then some (n, d.category) else firstMatchingMerchant text rest)
    cases hg : GATEWAYS.contains n
    · have hc : ∀ p ∈ d.patterns, p.compiles = true :=
        hall (n, d) (List.mem_cons_self _ _) hg
      rw [scanPatterns_all_compile text d.patterns hc]
      cases ha : d.patterns.any fun p => p.compiles && p.found text
      · simpa using ih hrest
      · simp
    · simpa using ih hrest

/-- Claim C1 (amended): when the weighted registry match selects a
non-gateway brand, that brand is returned at confidence 0.95 even if
gateway patterns also match; the override to confidence 0.98 applies
exactly when the weighted match selects a gateway brand, in which case
the first non-gateway brand with a matching pattern (registry order) is
returned with its category at the fixed confidence 0.98 regardless of
its own score. -/
theorem C1_gateway_override (registry : List (String × BrandData))
    (fb : Option String × String × ℚ) (text sender subject : String)
    (hall : ∀ e ∈ registry, GATEWAYS.contains e.1 = false →
      ∀ p ∈ e.2.patterns, p.compiles = true) :
    (∀ b c, weighted_brand_match registry text sender subject = (some b, c) →
      GATEWAYS.contains b = false →
      detect_brand registry fb text sender subject = Except.ok (some b, c, 0.95))
    ∧ (∀ g c m cm, weighted_brand_match registry text sender subject = (some g, c) →
      GATEWAYS.contains g = true →
      firstMatchingMerchant text registry = some (m, cm) →
      detect_brand registry fb text sender subject = Except.ok (some m, cm, 0.98)) := by
  constructor
  · intro b c hw hg
    simp only [detect_brand, hw]
    rw [hg]
    simp
  · intro g c m cm hw hg hfm
    simp only [detect_brand, hw]
    rw [hg]
    simp only [if_true, rescan_eq_first text registry hall, hfm]

def fbTriv : Option String × String × ℚ := (none, "others", 0)

def stripePat : Pat := ⟨true, fun t => substrB "stripe" t⟩

def acmePat : Pat := ⟨true, fun t => substrB "acme" t⟩

def regC1w : List (String × BrandData) :=
  [("stripe", ⟨[stripePat], [], [], 0.5, 0.3, 0.2, 1, "payment_gateway"⟩),
   ("acme", ⟨[acmePat], [], [], 0.5, 0.3, 0.2, 1, "shopping"⟩)]

/-- Claim C1 witness: with a registry holding the gateway stripe and the
merchant acme, a text matching both resolves to the merchant at
confidence 0.98 although the weighted match selected stripe. -/
theorem C1_gateway_override_witness :
    weighted_brand_match regC1w "stripe payment for acme" "" "" = (some "stripe", "payment_gateway")
    ∧ detect_brand regC1w fbTriv "stripe payment for acme" "" ""
        = Except.ok (some "acme", "shopping", 0.98) :=
  ⟨by with_unfolding_all decide,
    (C1_gateway_override regC1w fbTriv "stripe payment for acme" "" "" (by decide)).2
      "stripe" "payment_gateway" "acme" "shopping"
      (by with_unfolding_all decide) (by decide) (by decide)⟩

def regC1c : List (String × BrandData) :=
  [("acme", ⟨[acmePat], [], [], 0.5, 0.3, 0.2, 1, "shopping"⟩)]

/-- Claim C1 counterexample: a text matching a non-gateway brand's
pattern is returned at confidence 0.95, not the claimed fixed 0.98,
whenever the weighted match selects that non-gateway brand itself. -/
theorem C1_counterexample :
    detect_brand regC1c fbTriv "acme order" "" "" = Except.ok (some "acme", "shopping", 0.95)
    ∧ GATEWAYS.contains "acme" = false
    ∧ acmePat.found "acme order" = true
    ∧ (0.95 : ℚ) ≠ 0.98 := by
  refine ⟨by with_unfolding_all rfl, by decide, by decide, by with_unfolding_all decide⟩

lemma filterCompiles_any (ps : List Pat) (text : String) :
    ((ps.filter fun p => p.compiles).any fun p => p.compiles && p.found text)
      = ps.any fun p => p.compiles && p.found text := by
  induction ps with
  | nil => rfl
  | cons p ps ih => cases hc : p.compiles <;> simp [List.filter_cons, hc, ih]

lemma brandScore_strip (text sender subject : String) (d : BrandData) :
    brandScore text sender subject { d with patterns := d.patterns.filter fun p => p.compiles }
      = brandScore text sender subject d := by
  simp only [brandScore, filterCompiles_any]

lemma selStep_strip (text sender subject : String) (best : BestSel) (e : String × BrandData) :
    selStep text sender subject best
        (e.1, { e.2 with patterns := e.2.patterns.filter fun p => p.compiles })
      = selStep text sender subject best e := by
  simp only [selStep, brandScore_strip]

lemma foldl_selStep_strip (text sender subject : String) :
    ∀ (registry : List (String × BrandData)) (init : BestSel),
      (stripBad registry).foldl (selStep text sender subject) init
        = registry.foldl (selStep text sender subject) init := by
  intro registry
  induction registry with
  | nil => intro init; rfl
  | cons e rest ih =>
    intro init
    simp only [stripBad, List.map_cons, List.foldl_cons] at ih ⊢
    rw [selStep_strip, ih]

/-- Claim C4 (amended): removing every non-compiling pattern from the
registry changes nothing about the weighted matcher (scores and
selection are as if the bad patterns were absent), and brand detection
cannot raise when every registry pattern compiles; the gateway-override
re-scan, however, has no exception guard of its own (see the
counterexample). -/
theorem C4_bad_pattern_skipped (registry : List (String × BrandData))
    (text sender subject : String) :
    weighted_brand_match (stripBad registry) text sender subject
      = weighted_brand_match registry text sender subject
    ∧ ((∀ e ∈ registry, ∀ p ∈ e.2.patterns, p.compiles = true) →
        ∀ fb, detect_brand registry fb text sender subject ≠ Except.error ()) := by
  constructor
  · unfold weighted_brand_match selectBrand
    rw [foldl_selStep_strip]
  · intro hall fb
    have hall2 : ∀ e ∈ registry, GATEWAYS.contains e.1 = false →
        ∀ p ∈ e.2.patterns, p.compiles = true := fun e he _ => hall e he
    cases hw : (weighted_brand_match registry text sender subject).1 with
    | none => simp [detect_brand, hw]
    | some b =>
      cases hg : GATEWAYS.contains b
      · simp only [detect_brand, hw]
        rw [hg]
        simp
      · simp only [detect_brand, hw]
        rw [hg]
        simp only [if_true, rescan_eq_first text registry hall2]
        cases firstMatchingMerchant text registry with
        | none => simp
        | some mc => simp

def regC4w : List (String × BrandData) :=
  [("acme", ⟨[acmePat, ⟨false, fun _ => true⟩], [], [], 0.5, 0.3, 0.2, 1, "shopping"⟩)]

/-- Claim C4 witness: stripping the non-compiling patterns of a registry
leaves the weighted match unchanged, and with every pattern compiling,
detection does not raise. -/
theorem C4_bad_pattern_skipped_witness :
    weighted_brand_match (stripBad regC4w) "acme order" "" ""
      = weighted_brand_match regC4w "acme order" "" ""
    ∧ detect_brand regC1w fbTriv "stripe payment" "" "" ≠ Except.error () :=
  ⟨(C4_bad_pattern_skipped regC4w "acme order" "" "").1,
    (C4_bad_pattern_skipped regC1w "stripe payment" "" "").2 (by decide) fbTriv⟩

def badPat : Pat := ⟨false, fun _ => true⟩

def regC4c : List (String × BrandData) :=
  [("stripe", ⟨[stripePat], [], [], 0.5, 0.3, 0.2, 1, "payment_gateway"⟩),
   ("acme", ⟨[badPat], [], [], 0.5, 0.3, 0.2, 1, "shopping"⟩)]

/-- Claim C4 counterexample: when the weighted match selects a gateway
and a non-gateway brand carries a non-compiling pattern, the
gateway-override re-scan hits re.search without a guard and brand
detection raises instead of skipping the pattern. -/
theorem C4_counterexample :
    detect_brand regC4c fbTriv "pay via stripe" "" "" = Except.error ()
    ∧ badPat.compiles = false := by
  refine ⟨by with_unfolding_all rfl, rfl⟩

/-- Claim C5: when steps 1-3 of the frequency extractor find nothing and
the text holds at least two date tokens, the result is determined by
parsing the first two tokens day/month/year and mapping the absolute day
difference through the 27-33 / 350-380 / 6-8 ranges at confidence 0.75;
if either token fails to parse, the extractor returns no frequency at
confidence 0.0 (and, being total, never raises). -/
theorem C5_date_interval (text : String) (t1 t2 : List Char) (rest : List (List Char))
    (h1 : freqSteps123 (pyLower text) = none)
    (h2 : dateTokens (pyLower text) = t1 :: t2 :: rest) :
    (∀ a b, parseDMY t1 = some a → parseDMY t2 = some b →
      extract_frequency text = intervalFreq (dateDiffDays a b))
    ∧ ((parseDMY t1 = none ∨ parseDMY t2 = none) →
      extract_frequency text = (none, 0)) := by
  have he : extract_frequency text = freqStep4 (pyLower text) := by
    unfold extract_frequency
    rw [h1]
  constructor
  · intro a b ha hb
    rw [he]
    unfold freqStep4
    rw [h2]
    simp only [ha, hb]
  · intro h
    rw [he]
    unfold freqStep4
    rw [h2]
    rcases h with h | h <;> cases hpa : parseDMY t1 <;> cases hpb : parseDMY t2 <;> simp_all

def freqTextW : String := "billing on 01/01/2024 and next on 31/01/2024"

/-- Claim C5 witness: two slash dates thirty days apart, with no other
frequency signal, yield monthly at confidence 0.75. -/
theorem C5_date_interval_witness :
    freqSteps123 (pyLower freqTextW) = none
    ∧ extract_frequency freqTextW = (some "monthly", 0.75) := by
  have h := (C5_date_interval freqTextW "01/01/2024".toList "31/01/2024".toList []
      (by decide) (by decide)).1 (1, 1, 2024) (31, 1, 2024) (by decide) (by decide)
  exact ⟨by decide, h.trans (by with_unfolding_all decide)⟩

/-! ## Idempotence of normalize_broken_dates

The second application is the identity because the first one leaves no
newline (the final replacement maps every newline to a space) and no
br tag (str.replace never leaves or creates an occurrence of its own
nonempty token when the replacement is a space and the token has none):
without a newline neither the substitution regex (whose match always
consumes a literal newline) nor the line-break replacements can fire. -/

lemma infixB_cons (p : List Char) (c : Char) (cs : List Char) :
    infixB p (c :: cs) = (prefixB p (c :: cs) || infixB p cs) := rfl

lemma infixB_of_tail {p : List Char} (c : Char) {cs : List Char}
    (h : infixB p cs = true) : infixB p (c :: cs) = true := by
  rw [infixB_cons, h, Bool.or_true]

lemma infixB_of_prefixB {p l : List Char} (h : prefixB p l = true) : infixB p l = true := by
  cases l with
  | nil =>
    cases p with
    | nil => rfl
    | cons a q => simp [prefixB] at h
  | cons c cs => rw [infixB_cons, h, Bool.true_or]

lemma infixB_of_drop {p : List Char} : ∀ (n : Nat) (l : List Char),
    infixB p (l.drop n) = true → infixB p l = true := by
  intro n
  induction n with
  | zero => intro l h; simpa using h
  | succ n ih =>
    intro l h
    cases l with
    | nil => simpa using h
    | cons c cs => exact infixB_of_tail c (ih cs h)

lemma mem_of_prefixB : ∀ {p l : List Char} {a : Char}, prefixB p l = true → a ∈ p → a ∈ l := by
  intro p
  induction p with
  | nil =>
    intro l a h ha
    simp at ha
  | cons x q ih =>
    intro l a h ha
    cases l with
    | nil => simp [prefixB] at h
    | cons c cs =>
      have hx : x = c ∧ prefixB q cs = true := by
        by_cases hxc : x = c
        · exact ⟨hxc, by simpa [prefixB, hxc] using h⟩
        · simp [prefixB, hxc] at h
      rcases List.mem_cons.mp ha with rfl | ha2
      · rw [hx.1]
        exact List.mem_cons_self _ _
      · exact List.mem_cons_of_mem _ (ih hx.2 ha2)

lemma mem_of_infixB : ∀ {l p : List Char} {a : Char}, infixB p l = true → a ∈ p → a ∈ l := by
  intro l
  induction l with
  | nil =>
    intro p a h ha
    cases p with
    | nil => simp at ha
    | cons x q => simp [infixB] at h
  | cons c cs ih =>
    intro p a h ha
    rw [infixB_cons] at h
    rcases (Bool.or_eq_true _ _).mp h with h1 | h2
    · exact mem_of_prefixB h1 ha
    · exact List.mem_cons_of_mem _ (ih h2 ha)

lemma infixB_of_mem {a : Char} {l : List Char} (h : a ∈ l) : infixB [a] l = true := by
  induction l with
  | nil => simp at h
  | cons c cs ih =>
    rw [infixB_cons]
    rcases List.mem_cons.mp h with rfl | h2
    · have hp : prefixB [a] (a :: cs) = true := by simp [prefixB]
      rw [hp, Bool.true_or]
    · rw [ih h2, Bool.or_true]

lemma not_infixB_of_not_mem {a : Char} {p l : List Char} (ha : a ∈ p) (h : a ∉ l) :
    infixB p l = false := by
  cases hx : infixB p l
  · rfl
  · exact absurd (mem_of_infixB hx ha) h

lemma replaceTokAux_id (q0 : Char) (qs : List Char) : ∀ (fuel : Nat) (l : List Char),
    infixB (q0 :: qs) l = false → replaceTokAux q0 qs fuel l = l := by
  intro fuel
  induction fuel with
  | zero => intro l _; rfl
  | succ f ih =>
    intro l h
    cases l with
    | nil => rfl
    | cons c cs =>
      rw [infixB_cons] at h
      obtain ⟨h1, h2⟩ := Bool.or_eq_false_iff.mp h
      simp only [replaceTokAux, h1, Bool.false_eq_true, if_false]
      rw [ih cs h2]

lemma replaceTokAux_prefixB (q0 : Char) (qs : List Char) : ∀ (fuel : Nat) (l t : List Char),
    t ≠ [] → ' ' ∉ t → prefixB t (replaceTokAux q0 qs fuel l) = true → prefixB t l = true := by
  intro fuel
  induction fuel with
  | zero => intro l t _ _ h; exact h
  | succ f ih =>
    intro l t ht hsp h
    cases l with
    | nil => exact h
    | cons c cs =>
      cases hp : prefixB (q0 :: qs) (c :: cs)
      · rw [show replaceTokAux q0 qs (f + 1) (c :: cs) = c :: replaceTokAux q0 qs f cs from by
          simp [replaceTokAux, hp]] at h
        cases t with
        | nil => exact absurd rfl ht
        | cons x t2 =>
          have hxc : x = c := by
            by_cases hx : x = c
            · exact hx
            · simp [prefixB, hx] at h
          subst hxc
          have h2 : prefixB t2 (replaceTokAux q0 qs f cs) = true := by
            simpa [prefixB] using h
          cases t2 with
          | nil => simp [prefixB]
          | cons y t3 =>
            have h3 := ih cs (y :: t3) (by simp)
              (fun hm => hsp (List.mem_cons_of_mem _ hm)) h2
            simpa [prefixB] using h3
      · rw [show replaceTokAux q0 qs (f + 1) (c :: cs)
            = ' ' :: replaceTokAux q0 qs f (cs.drop qs.length) from by
          simp [replaceTokAux, hp]] at h
        cases t with
        | nil => exact absurd rfl ht
        | cons x t2 =>
          have hx : x = ' ' := by
            by_cases hx : x = ' '
            · exact hx
            · simp [prefixB, hx] at h
          subst hx
          exact absurd (List.mem_cons_self _ _) hsp

lemma replaceTokAux_noMore (q0 : Char) (qs : List Char) (hq : ' ' ∉ q0 :: qs) :
    ∀ (fuel : Nat) (l : List Char), l.length ≤ fuel →
      infixB (q0 :: qs) (replaceTokAux q0 qs fuel l) = false := by
  intro fuel
  induction fuel with
  | zero =>
    intro l hl
    have h0 : l = [] := List.length_eq_zero.mp (Nat.le_zero.mp hl)
    subst h0
    rfl
  | succ f ih =>
    intro l hl
    cases l with
    | nil => rfl
    | cons c cs =>
      have hcs : cs.length ≤ f := Nat.le_of_succ_le_succ hl
      cases hp : prefixB (q0 :: qs) (c :: cs)
      · rw [show replaceTokAux q0 qs (f + 1) (c :: cs) = c :: replaceTokAux q0 qs f cs from by
          simp [replaceTokAux, hp]]
        rw [infixB_cons]
        have htail : infixB (q0 :: qs) (replaceTokAux q0 qs f cs) = false := ih cs hcs
        have hpre : prefixB (q0 :: qs) (c :: replaceTokAux q0 qs f cs) = false := by
          cases hp2 : prefixB (q0 :: qs) (c :: replaceTokAux q0 qs f cs)
          · rfl
          · exfalso
            have hq0 : q0 = c := by
              by_cases h0 : q0 = c
              · exact h0
              · simp [prefixB, h0] at hp2
            have hqs : prefixB qs (replaceTokAux q0 qs f cs) = true := by
              simpa [prefixB, hq0] using hp2
            cases qs with
            | nil =>
              rw [hq0] at hp
              simp [prefixB] at hp
            | cons y ys =>
              have h3 := replaceTokAux_prefixB q0 (y :: ys) f cs (y :: ys) (by simp)
                (fun hm => hq (List.mem_cons_of_mem _ hm)) hqs
              rw [hq0] at hp
              simp [prefixB, h3] at hp
        rw [hpre, htail]
        rfl
      · rw [show replaceTokAux q0 qs (f + 1) (c :: cs)
            = ' ' :: replaceTokAux q0 qs f (cs.drop qs.length) from by
          simp [replaceTokAux, hp]]
        rw [infixB_cons]
        have hdl : (cs.drop qs.length).length ≤ f :=
          le_trans (by rw [List.length_drop]; exact Nat.sub_le _ _) hcs
        have htail : infixB (q0 :: qs) (replaceTokAux q0 qs f (cs.drop qs.length)) = false :=
          ih (cs.drop qs.length) hdl
        have hpre : prefixB (q0 :: qs) (' ' :: replaceTokAux q0 qs f (cs.drop qs.length)) = false := by
          cases hp2 : prefixB (q0 :: qs) (' ' :: replaceTokAux q0 qs f (cs.drop qs.length))
          · rfl
          · exfalso
            have hq0 : q0 = ' ' := by
              by_cases h0 : q0 = ' '
              · exact h0
              · simp [prefixB, h0] at hp2
            exact hq (hq0 ▸ List.mem_cons_self _ _)
        rw [hpre, htail]
        rfl

lemma replaceTokAux_infixB (q0 : Char) (qs : List Char) (p : List Char)
    (hp0 : p ≠ []) (hsp : ' ' ∉ p) :
    ∀ (fuel : Nat) (l : List Char),
      infixB p (replaceTokAux q0 qs fuel l) = true → infixB p l = true := by
  intro fuel
  induction fuel with
  | zero => intro l h; exact h
  | succ f ih =>
    intro l h
    cases l with
    | nil => exact h
    | cons c cs =>
      cases hpm : prefixB (q0 :: qs) (c :: cs)
      · rw [show replaceTokAux q0 qs (f + 1) (c :: cs) = c :: replaceTokAux q0 qs f cs from by
          simp [replaceTokAux, hpm]] at h
        rw [infixB_cons] at h
        rcases (Bool.or_eq_true _ _).mp h with h1 | h2
        · cases p with
          | nil => exact absurd rfl hp0
          | cons x p2 =>
            have hxc : x = c := by
              by_cases hx : x = c
              · exact hx
              · simp [prefixB, hx] at h1
            subst hxc
            have h1b : prefixB p2 (replaceTokAux q0 qs f cs) = true := by
              simpa [prefixB] using h1
            cases p2 with
            | nil => exact infixB_of_prefixB (by simp [prefixB])
            | cons y p3 =>
              have h3 := replaceTokAux_prefixB q0 qs f cs (y :: p3) (by simp)
                (fun hm => hsp (List.mem_cons_of_mem _ hm)) h1b
              exact infixB_of_prefixB (by simpa [prefixB] using h3)
        · exact infixB_of_tail c (ih cs h2)
      · rw [show replaceTokAux q0 qs (f + 1) (c :: cs)
            = ' ' :: replaceTokAux q0 qs f (cs.drop qs.length) from by
          simp [replaceTokAux, hpm]] at h
        rw [infixB_cons] at h
        rcases (Bool.or_eq_true _ _).mp h with h1 | h2
        · exfalso
          cases p with
          | nil => exact absurd rfl hp0
          | cons x p2 =>
            have hx : x = ' ' := by
              by_cases hx : x = ' '
              · exact hx
              · simp [prefixB, hx] at h1
            exact hsp (hx ▸ List.mem_cons_self _ _)
        · exact infixB_of_tail c (infixB_of_drop qs.length cs (ih (cs.drop qs.length) h2))

lemma replaceTok_id (q0 : Char) (qs : List Char) (l : List Char)
    (h : infixB (q0 :: qs) l = false) : replaceTok q0 qs l = l :=
  replaceTokAux_id q0 qs l.length l h

lemma replaceTok_noMore (q0 : Char) (qs : List Char) (hq : ' ' ∉ q0 :: qs) (l : List Char) :
    infixB (q0 :: qs) (replaceTok q0 qs l) = false :=
  replaceTokAux_noMore q0 qs hq l.length l le_rfl

lemma replaceTok_infixB (q0 : Char) (qs : List Char) (p : List Char)
    (hp0 : p ≠ []) (hsp : ' ' ∉ p) (l : List Char)
    (h : infixB p (replaceTok q0 qs l) = true) : infixB p l = true :=
  replaceTokAux_infixB q0 qs p hp0 hsp l.length l h

lemma dayComma_suffix {l r : List Char} (h : dayComma l = some r) : List.IsSuffix r l := by
  unfold dayComma at h
  split at h
  · next a b rest =>
    split at h
    · split at h
      · split at h
        · next r2 =>
          cases h
          exact ⟨[a, b, ','], rfl⟩
        · exact absurd h (by simp)
      · split at h
        · cases h
          exact ⟨[a, b], rfl⟩
        · exact absurd h (by simp)
    · exact absurd h (by simp)
  · exact absurd h (by simp)

/-- A successful match of the broken-date regex always consumes a literal
newline, so a match needs a newline somewhere in the haystack. -/
lemma tryMatchBD_newline {prev : Option Char} {l : List Char}
    {r : List Char × List Char × List Char}
    (h : tryMatchBD prev l = some r) : '\n' ∈ l := by
  unfold tryMatchBD at h
  split at h
  · split at h
    · exact absurd h (by simp)
    · dsimp only at h
      split at h
      · exact absurd h (by simp)
      · split at h
        · exact absurd h (by simp)
        · next r4 heq =>
          split at h
          · next hny =>
            have h1 : '\n' ∈ r4.takeWhile isPySpace := by
              rcases List.any_eq_true.mp hny with ⟨x, hx, hbeq⟩
              have hxe : x = '\n' := by simpa using hbeq
              rw [hxe] at hx
              exact hx
            have h2 : '\n' ∈ r4 := (List.takeWhile_sublist _).mem h1
            have h3 : '\n' ∈ ((l.drop 3).dropWhile isAsciiLetter).dropWhile isPySpace :=
              ((dayComma_suffix heq).sublist).mem h2
            have h4 : '\n' ∈ (l.drop 3).dropWhile isAsciiLetter :=
              ((List.dropWhile_suffix _).sublist).mem h3
            have h5 : '\n' ∈ l.drop 3 := ((List.dropWhile_suffix _).sublist).mem h4
            exact ((List.drop_suffix _ _).sublist).mem h5
          · exact absurd h (by simp)
  · exact absurd h (by simp)

lemma subBDAux_id : ∀ (fuel : Nat) (prev : Option Char) (l : List Char),
    '\n' ∉ l → subBDAux fuel prev l = l := by
  intro fuel
  induction fuel with
  | zero => intro prev l _; rfl
  | succ f ih =>
    intro prev l h
    cases l with
    | nil => rfl
    | cons c cs =>
      cases hm : tryMatchBD prev (c :: cs) with
      | some r => exact absurd (tryMatchBD_newline hm) h
      | none =>
        simp only [subBDAux, hm]
        rw [ih (some c) cs (fun hm2 => h (List.mem_cons_of_mem _ hm2))]

lemma subBD_id (l : List Char) (h : '\n' ∉ l) : subBD l = l :=
  subBDAux_id l.length none l h

lemma nbdL_no_newline (l : List Char) : '\n' ∉ nbdL l := by
  intro hmem
  have h1 : infixB ['\n'] (nbdL l) = true := infixB_of_mem hmem
  have h2 : infixB ('\n' :: ([] : List Char))
      (replaceTok '\n' [] (replaceTok '\r' ['\n'] (replaceTok '<' ['b', 'r', '>'] (subBD l))))
      = false := replaceTok_noMore '\n' [] (by decide) _
  exact absurd (h1.symm.trans h2) (by decide)

lemma nbdL_no_br (l : List Char) : infixB ['<', 'b', 'r', '>'] (nbdL l) = false := by
  have h0 : infixB ('<' :: ['b', 'r', '>']) (replaceTok '<' ['b', 'r', '>'] (subBD l)) = false :=
    replaceTok_noMore '<' ['b', 'r', '>'] (by decide) _
  cases hx : infixB ['<', 'b', 'r', '>'] (nbdL l)
  · rfl
  · exfalso
    unfold nbdL at hx
    have h1 := replaceTok_infixB '\n' [] ['<', 'b', 'r', '>'] (by decide) (by decide) _ hx
    have h2 := replaceTok_infixB '\r' ['\n'] ['<', 'b', 'r', '>'] (by decide) (by decide) _ h1
    exact absurd (h2.symm.trans h0) (by decide)

lemma nbdL_clean_id (l : List Char) (h1 : '\n' ∉ l)
    (h2 : infixB ['<', 'b', 'r', '>'] l = false) : nbdL l = l := by
  unfold nbdL
  rw [subBD_id l h1]
  rw [replaceTok_id '<' ['b', 'r', '>'] l h2]
  rw [replaceTok_id '\r' ['\n'] l (not_infixB_of_not_mem (by decide) h1)]
  rw [replaceTok_id '\n' [] l (not_infixB_of_not_mem (by decide) h1)]

/-- Claim C9: the broken-date normalizer is idempotent: applying it twice
gives the same output as applying it once.  The first pass removes every
newline and every br tag, after which neither the date-joining regex nor
any of the literal replacements can fire. -/
theorem C9_normalize_idempotent (s : String) :
    normalize_broken_dates (normalize_broken_dates s) = normalize_broken_dates s := by
  show String.mk (nbdL (nbdL s.toList)) = String.mk (nbdL s.toList)
  exact congrArg String.mk (nbdL_clean_id _ (nbdL_no_newline _) (nbdL_no_br _))
